import Mathlib

/-!
Shallow embedding of the photo2html generator (src/main.rs) and proofs of
the spec claims.

Modelling conventions:
* Calendar dates (`chrono::NaiveDate`) are triples of naturals with
  lexicographic order; naive date-times (`chrono::NaiveDateTime`) are a date
  plus a seconds-of-day count, again lexicographically ordered.
* Rust's stable `sort_by_key(Reverse(k))` is embedded as `List.mergeSort`
  with the comparison `k b ≤ k a`; Lean's `mergeSort` is a stable sort, like
  Rust's.
* The `HashMap<NaiveDate, Vec<Photo>>` grouping iterates in arbitrary order,
  but the groups are subsequently sorted by `Reverse(date)` over distinct
  keys, so the final group list is fully determined: the distinct dates in
  descending order, each paired with the photos of that date in scan order
  (then stably sorted by descending datetime).  The embedding produces that
  determined result directly.
* `Vec::split_inclusive` with the stateful closure of `generate` is embedded
  in two steps: `split_flags` replays the closure's running-count state over
  the group list, and `splitInclusive` chunks the list after every flagged
  element, yielding no trailing empty chunk and nothing on an empty input,
  exactly as Rust's `split_inclusive` does.
* File modification times (`SystemTime`) are naturals; the derivative cache
  of `Photo::generate_image` is a store from output path to file state,
  threaded through the per-photo, thumbnail-then-display processing order.
-/

namespace Photo2Html

/-- Calendar date, standing for `chrono::NaiveDate`. -/
structure Date where
  y : Nat
  m : Nat
  d : Nat
deriving DecidableEq, Repr

/-- Lexicographic order on dates, standing for `NaiveDate`'s `Ord`. -/
def Date.le (a b : Date) : Prop :=
  a.y < b.y ∨ (a.y = b.y ∧ (a.m < b.m ∨ (a.m = b.m ∧ a.d ≤ b.d)))

/-- Strict lexicographic order on dates. -/
def Date.lt (a b : Date) : Prop :=
  a.y < b.y ∨ (a.y = b.y ∧ (a.m < b.m ∨ (a.m = b.m ∧ a.d < b.d)))

instance (a b : Date) : Decidable (Date.le a b) := by
  unfold Date.le; infer_instance

instance (a b : Date) : Decidable (Date.lt a b) := by
  unfold Date.lt; infer_instance

theorem date_le_total (a b : Date) : Date.le a b ∨ Date.le b a := by
  cases a; cases b; simp only [Date.le]; omega

theorem date_le_trans {a b c : Date} (h1 : Date.le a b) (h2 : Date.le b c) :
    Date.le a c := by
  cases a; cases b; cases c; simp only [Date.le] at *; omega

theorem Date.lt_of_le_of_ne {a b : Date} (h1 : Date.le a b) (h2 : a ≠ b) :
    Date.lt a b := by
  rw [Ne, Date.mk.injEq] at h2
  cases a; cases b; simp only [Date.le, Date.lt] at *; omega

theorem Date.not_lt_self {a : Date} : ¬ Date.lt a a := by
  cases a; simp only [Date.lt]; omega

theorem Date.ne_of_lt {a b : Date} (h : Date.lt a b) : a ≠ b := by
  intro he; subst he; exact Date.not_lt_self h

/-- Naive local date-time, standing for `chrono::NaiveDateTime`: a calendar
date plus the second of the day. -/
structure DT where
  date : Date
  secs : Nat
deriving DecidableEq, Repr

/-- Lexicographic order on date-times, standing for `NaiveDateTime`'s `Ord`. -/
def DT.le (a b : DT) : Prop :=
  Date.lt a.date b.date ∨ (a.date = b.date ∧ a.secs ≤ b.secs)

instance (a b : DT) : Decidable (DT.le a b) := by
  unfold DT.le; infer_instance

theorem dt_le_total (a b : DT) : DT.le a b ∨ DT.le b a := by
  cases a with
  | mk ad as =>
    cases b with
    | mk bd bs =>
      cases ad; cases bd
      simp only [DT.le, Date.lt, Date.mk.injEq]; omega

theorem dt_le_trans {a b c : DT} (h1 : DT.le a b) (h2 : DT.le b c) :
    DT.le a c := by
  cases a with
  | mk ad as =>
    cases b with
    | mk bd bs =>
      cases c with
      | mk cd cs =>
        cases ad; cases bd; cases cd
        simp only [DT.le, Date.lt, Date.mk.injEq] at *; omega

theorem DT.le_refl (a : DT) : DT.le a a := Or.inr ⟨rfl, Nat.le_refl _⟩

/-- One source photo, standing for `struct Photo`: its source file name and
its `captured_at` timestamp (`datetime` in the source).  The derivative
paths are recomputed from the name by [[thumbnail_path]]/[[img_path]] below,
exactly as `Photo::generate_image` derives them. -/
structure Photo where
  name : String
  dt : DT
deriving DecidableEq, Repr

/-- Comparison used for the per-group photo sort
`v.sort_by_key(|p| Reverse(p.datetime))`: `a` comes no later than `b` iff
`b.datetime ≤ a.datetime` (descending). -/
def photoDescLe (a b : Photo) : Bool := decide (DT.le b.dt a.dt)

/-- Comparison used for the group sort
`photos_by_day.sort_by_key(|k| Reverse(k.0))`: descending on dates. -/
def dateDescLe (a b : Date) : Bool := decide (Date.le b a)

/-- Distinct capture dates of the photo list, sorted descending: the key set
of the `HashMap` grouping in `generate`, after
`photos_by_day.sort_by_key(|k| Reverse(k.0))`. -/
def sorted_dates (photos : List Photo) : List Date :=
  ((photos.map (fun p => p.dt.date)).dedup).mergeSort dateDescLe

/-- Day-groups of a run, standing for the sorted `photos_by_day` vector of
`generate`: each distinct date, descending, paired with that date's photos
in scan order stably sorted by descending `datetime`. -/
def photos_by_day (photos : List Photo) : List (Date × List Photo) :=
  (sorted_dates photos).map
    (fun d => (d, (photos.filter (fun p => decide (p.dt.date = d))).mergeSort photoDescLe))

/-- Per-page photo maximum, `MAX_NUM_PHOTO_PER_PAGE` in `generate`. -/
def MAX_NUM_PHOTO_PER_PAGE : Nat := 50

/-- Replay of the stateful closure passed to `split_inclusive` in
`generate`: `s` is the running `page_num_photo`; the returned flags record,
group by group, whether the closure returned `true` (running count
exceeded the maximum; count reset to the group's size). -/
def split_flags (max : Nat) : Nat → List (Date × List Photo) → List Bool
  | _, [] => []
  | s, g :: gs =>
    if max < s + g.2.length then true :: split_flags max g.2.length gs
    else false :: split_flags max (s + g.2.length) gs

/-- Chunking of `slice::split_inclusive`: each flagged element terminates the
chunk containing it; a trailing unflagged run forms a final chunk; an empty
input yields no chunks (so no chunk is ever empty). -/
def splitInclusive {α : Type} : List (α × Bool) → List (List α)
  | [] => []
  | (a, b) :: rest =>
    if b then [a] :: splitInclusive rest
    else
      match splitInclusive rest with
      | [] => [[a]]
      | c :: cs => (a :: c) :: cs

/-- Pagination of `generate`:
`photos_by_day.split_inclusive(|(_, v)| { ... })` with the running-count
closure. -/
def pagesOf (max : Nat) (gs : List (Date × List Photo)) :
    List (List (Date × List Photo)) :=
  splitInclusive (gs.zip (split_flags max 0 gs))

/-- Pages of a run: pagination applied to the day-groups. -/
def pages (photos : List Photo) : List (List (Date × List Photo)) :=
  pagesOf MAX_NUM_PHOTO_PER_PAGE (photos_by_day photos)


/-! Derivative output paths (`Photo::generate_image`). -/

/-- Index of the last `'.'` in a character list, if any: the position used by
`Path::extension`. -/
def lastDotIdx (cs : List Char) : Option Nat :=
  (cs.zip (List.range cs.length)).foldl
    (fun acc ci => if ci.1 = '.' then some ci.2 else acc) none

/-- Stem of a file name under Rust's `Path` rules: everything before the last
`'.'`, except that a lone leading dot (hidden file) is part of the stem. -/
def rustFileStem (s : String) : String :=
  let cs := s.toList
  match lastDotIdx cs with
  | none => s
  | some i => if i = 0 then s else ⟨cs.take i⟩

/-- Rust's `Path::with_extension` for a non-empty extension: replace the
extension (under `rustFileStem`'s rules) by `.ext`. -/
def withExtension (s ext : String) : String :=
  rustFileStem s ++ "." ++ ext

/-- Output file name of both derivatives of a source photo:
`input.file_name()` with extension replaced by `jpg`. -/
def outputName (name : String) : String := withExtension name "jpg"

/-- Thumbnail derivative path, relative to the output directory
(`options.thumbnail_dir.join(filename).with_extension("jpg")`). -/
def thumbnail_path (name : String) : String := "thumbnail/" ++ outputName name

/-- Display derivative path, relative to the output directory
(`options.img_dir.join(filename).with_extension("jpg")`). -/
def img_path (name : String) : String := "img/" ++ outputName name

/-! Derivative cache (`Photo::generate_image`). -/

/-- State of one output file: whether it exists, its modification time, and
its bytes (abstracted to a natural number). -/
structure Deriv where
  present : Bool
  mtime : Nat
  content : Nat
deriving Repr

/-- Conversion-tool invocation decision of `Photo::generate_image`: the tool
is skipped exactly when the output exists and was modified strictly later
than the source. -/
def generate_image_invoked (present : Bool) (dmtime smtime : Nat) : Bool :=
  if present then
    if smtime < dmtime then false else true
  else true

/-- Processing of one derivative job `(output path, source mtime)`: reuse the
cached file when valid, otherwise (re)write it at time `clock` with the
conversion tool's output, recording the invocation. -/
def stepJob (tool : String → Nat) (clock : Nat)
    (st : (String → Deriv) × List String) (job : String × Nat) :
    (String → Deriv) × List String :=
  if (st.1 job.1).present && decide (job.2 < (st.1 job.1).mtime) then st
  else
    (fun k => if k = job.1 then ⟨true, clock, tool job.1⟩ else st.1 k,
     st.2 ++ [job.1])

/-- Derivative jobs of a run: for each photo `(file name, mtime)` in scan
order, the thumbnail derivative then the display derivative, as in
`Photo::new`. -/
def jobsOf (photos : List (String × Nat)) : List (String × Nat) :=
  photos.flatMap (fun p => [(thumbnail_path p.1, p.2), (img_path p.1, p.2)])

/-- Derivative-cache pass of one pipeline run at time `clock`: fold the jobs
over the store, returning the final store and the list of output paths for
which the conversion tool was invoked. -/
def runCache (tool : String → Nat) (clock : Nat)
    (photos : List (String × Nat)) (fs0 : String → Deriv) :
    (String → Deriv) × List String :=
  (jobsOf photos).foldl (stepJob tool clock) (fs0, [])

/-! Capture-time extraction (`Photo::new`), over instants.

A `NaiveDateTime` is represented by its timeline position in seconds (an
integer); a `FixedOffset` by its offset in seconds.  This is faithful to
chrono: `offset.from_local_datetime(&dt)` is always `Single` for a fixed
offset and yields the instant `dt - offset` (as naive UTC), and
`.naive_local()` adds the offset back. -/

/-- Attachment of a fixed offset to a parsed wall-clock time,
`offset.from_local_datetime(&datetime).unwrap()`, returned as the underlying
naive-UTC instant. -/
def from_local_datetime (offsetSecs localDt : Int) : Int := localDt - offsetSecs

/-- Local wall-clock view of an instant at a fixed offset, `.naive_local()`. -/
def naive_local (offsetSecs utcInstant : Int) : Int := utcInstant + offsetSecs

/-- The `captured_at` timestamp stored by `Photo::new`, from the parsed EXIF
wall-clock time and the parsed EXIF UTC offset. -/
def captured_at (offsetSecs parsedDt : Int) : Int :=
  naive_local offsetSecs (from_local_datetime offsetSecs parsedDt)

/-! Page rendering (`generate`, `generate_page`, `page_path`). -/

/-- Zero-padded decimal with at least two digits. -/
def pad2 (n : Nat) : String :=
  if n < 10 then "0" ++ toString n else toString n

/-- Zero-padded decimal with at least four digits. -/
def pad4 (n : Nat) : String :=
  if n < 10 then "000" ++ toString n
  else if n < 100 then "00" ++ toString n
  else if n < 1000 then "0" ++ toString n
  else toString n

/-- Rendering of a `NaiveDate` by chrono's `Debug`, `YYYY-MM-DD`. -/
def dateStr (d : Date) : String :=
  pad4 d.y ++ "-" ++ pad2 d.m ++ "-" ++ pad2 d.d

/-- File name of a page, `page_path` in the source. -/
def page_path (index : Nat) : String := "page_" ++ toString index ++ ".html"

/-- Separator between the two dates of a page's navigation label.  The
format string at main.rs:198 does NOT contain an en dash: its separator is
the three characters U+00E2 U+20AC U+201C (source bytes
`C3 A2 E2 82 AC E2 80 9C`, an en dash double-encoded through cp1252), so the
program emits exactly these three characters between the dates. -/
def navSep : String := "\u00E2\u20AC\u201C"

/-- Navigation label of one page, from `generate`: the page's last group
holds its start (earliest) date and its first group its end (latest) date;
distinct dates render as the two dates joined by [[navSep]], matching dates
as the date alone.  The source `unwrap`s `first`/`last` (pages are never
empty) and `assert`s `start == end` in the else branch; both unreachable
cases default here. -/
def navLabel (pg : List (Date × List Photo)) : String :=
  match pg.getLast?, pg.head? with
  | some s, some e =>
    if Date.lt s.1 e.1 then dateStr s.1 ++ navSep ++ dateStr e.1
    else dateStr s.1
  | _, _ => ""

/-- One navigation entry, from `generate`:
`<li><a href="{path}" class="page_{index}">{text}</a></li>\n`. -/
def navEntry (index : Nat) (pg : List (Date × List Photo)) : String :=
  "<li><a href=\"" ++ page_path index ++ "\" class=\"page_" ++ toString index
    ++ "\">" ++ navLabel pg ++ "</a></li>\n"

/-- The navigation fragment, computed once per run in `generate` and passed
to every `generate_page` call. -/
def nav (pgs : List (List (Date × List Photo))) : String :=
  "<hr>\n<ul class=\"nav\">\n"
    ++ String.join (pgs.enum.map (fun ip => navEntry ip.1 ip.2))
    ++ "</ul>\n"

/-- The html document shell head, `HTML_BEGIN`. -/
def HTML_BEGIN : String :=
  "\n<!DOCTYPE html>\n<html lang=\"en\">\n\n<head>\n    <meta charset=\"utf-8\">\n    <title>Photos</title>\n    <meta name=\"viewport\" content=\"width=device-width, initial-scale=1.0\">\n    <link rel=\"stylesheet\" type=\"text/css\" href=\"./css/style.css\">\n    <link rel=\"icon\" href=\"/favicon.ico\" sizes=\"any\">\n    <link rel=\"icon\" href=\"/icon.svg\" type=\"image/svg+xml\">\n    <link rel=\"apple-touch-icon\" href=\"/apple-touch-icon.png\">\n    <link rel=\"manifest\" href=\"/site.webmanifest\">\n    <meta name=\"theme-color\" content=\"#ffffff\">\n</head>\n\n"

/-- The html document shell tail, `HTML_END`. -/
def HTML_END : String := "\n\n\n</html>\n\n"

/-- The self-highlighting style block of `generate_page`. -/
def styleFor (index : Nat) : String :=
  "<style>\na.page_" ++ toString index
    ++ " \x7b\n    font-weight: bold;\n    color: gray;\n\x7d\n</style>\n"

/-- Body chunks of one day-group within a page, from `generate_page`: date
heading, grid container, one figure per photo linking the display derivative
and embedding the thumbnail derivative (paths relative to the output root). -/
def groupChunks (g : Date × List Photo) : List String :=
  ("<h2>" ++ dateStr g.1 ++ "</h2>\n<div class=\"masonry-grid\">\n")
    :: g.2.map (fun p =>
      "<figure><a href=\"" ++ img_path p.name ++ "\"><img src=\"./"
        ++ thumbnail_path p.name ++ "\"></figure></a>\n")
    ++ ["</div>\n"]

/-- The chunk sequence written for one page by `generate_page` (the source
writes these strings one after another into `page_{index}.html`). -/
def pageChunks (pg : List (Date × List Photo)) (index : Nat) (nv : String) :
    List String :=
  [HTML_BEGIN, styleFor index, "<body>\n"]
    ++ (pg.map groupChunks).flatten
    ++ ["</body>", nv, HTML_END]

/-- The files written by `generate`: for page `index` (0-based, in order) the
path `output_dir/page_{index}.html` and the page's chunk sequence, every
page sharing the one precomputed navigation fragment. -/
def generate_writes (outDir : String) (photos : List Photo) :
    List (String × List String) :=
  (pages photos).enum.map
    (fun ip =>
      (outDir ++ "/" ++ page_path ip.1, pageChunks ip.2 ip.1 (nav (pages photos))))

/-- Validity of a cached derivative at `k` against a source of modification
time `smtime`: the file exists and is strictly newer than the source.  This
is the reuse condition of `Photo::generate_image`. -/
def cacheValid (fs : String → Deriv) (k : String) (smtime : Nat) : Prop :=
  (fs k).present = true ∧ smtime < (fs k).mtime

/-! Concrete fixtures used to evaluate the embedded program on the inputs
that the claims and the spec's examples name. -/

/-- Fixture date 2024-01-03. -/
def date0103 : Date := ⟨2024, 1, 3⟩

/-- Fixture date 2024-01-02. -/
def date0102 : Date := ⟨2024, 1, 2⟩

/-- Fixture date 2024-01-01. -/
def date0101 : Date := ⟨2024, 1, 1⟩

/-- Fixture photo with a given capture date and second-of-day. -/
def samplePhoto (d : Date) (n : Nat) : Photo := ⟨"p" ++ toString n, ⟨d, n⟩⟩

/-- Fixture day-group of 30 photos dated 2024-01-03. -/
def g30a : Date × List Photo := (date0103, List.replicate 30 (samplePhoto date0103 0))

/-- Fixture day-group of 30 photos dated 2024-01-02. -/
def g30b : Date × List Photo := (date0102, List.replicate 30 (samplePhoto date0102 0))

/-- Fixture day-group of 5 photos dated 2024-01-01. -/
def g5c : Date × List Photo := (date0101, List.replicate 5 (samplePhoto date0101 0))

/-- Fixture day-group of 10 photos dated 2024-01-03. -/
def g10 : Date × List Photo := (date0103, List.replicate 10 (samplePhoto date0103 0))

/-- Fixture oversized day-group of 80 photos dated 2024-01-02. -/
def g80 : Date × List Photo := (date0102, List.replicate 80 (samplePhoto date0102 0))

/-- Fixture photo "one", captured 2024-01-02, second 10. -/
def wP1 : Photo := ⟨"one", ⟨date0102, 10⟩⟩

/-- Fixture photo "two": same capture instant as [[wP1]], scanned later. -/
def wP2 : Photo := ⟨"two", ⟨date0102, 10⟩⟩

/-- Fixture photo "three", captured 2024-01-01. -/
def wP3 : Photo := ⟨"three", ⟨date0101, 5⟩⟩

/-- Fixture scan order: two photos with equal timestamps, then another day. -/
def wPhotos : List Photo := [wP1, wP2, wP3]

/-- Fixture photo captured 2024-01-05. -/
def nP1 : Photo := ⟨"n1", ⟨⟨2024, 1, 5⟩, 0⟩⟩

/-- Fixture photo captured 2024-01-02. -/
def nP2 : Photo := ⟨"n2", ⟨date0102, 0⟩⟩

/-- Fixture run whose single page spans 2024-01-02 through 2024-01-05. -/
def nPhotos : List Photo := [nP1, nP2]

/-- The single page produced by the [[nPhotos]] run. -/
def navPage : List (Date × List Photo) := [(⟨2024, 1, 5⟩, [nP1]), (date0102, [nP2])]

/-! General lemmas about the embedded operations. -/

theorem split_flags_length (max : Nat) :
    ∀ (s : Nat) (gs : List (Date × List Photo)),
      (split_flags max s gs).length = gs.length := by
  intro s gs
  induction gs generalizing s with
  | nil => rfl
  | cons g gs ih =>
    simp only [split_flags]
    split <;> simp [ih]

theorem splitInclusive_flatten {α : Type} :
    ∀ l : List (α × Bool), (splitInclusive l).flatten = l.map Prod.fst := by
  intro l
  induction l with
  | nil => rfl
  | cons ab rest ih =>
    obtain ⟨a, b⟩ := ab
    simp only [splitInclusive]
    by_cases hb : b
    · simp [hb, ih]
    · simp only [hb, if_neg, Bool.false_eq_true, not_false_eq_true, ite_false]
      cases hrec : splitInclusive rest with
      | nil =>
        simp only [List.map]
        rw [hrec] at ih
        simp at ih
        simp [← ih]
      | cons c cs =>
        rw [hrec] at ih
        simp only [List.flatten_cons, List.map_cons, List.cons_append]
        rw [← ih]
        simp

theorem splitInclusive_ne_nil {α : Type} :
    ∀ (l : List (α × Bool)) (pg : List α), pg ∈ splitInclusive l → pg ≠ [] := by
  intro l
  induction l with
  | nil => intro pg h; simp [splitInclusive] at h
  | cons ab rest ih =>
    obtain ⟨a, b⟩ := ab
    intro pg h
    simp only [splitInclusive] at h
    by_cases hb : b
    · simp only [hb, ite_true, List.mem_cons] at h
      rcases h with h | h
      · subst h; simp
      · exact ih pg h
    · simp only [hb, Bool.false_eq_true, not_false_eq_true, ite_false] at h
      cases hrec : splitInclusive rest with
      | nil =>
        rw [hrec] at h
        simp only [List.mem_singleton] at h
        subst h; simp
      | cons c cs =>
        rw [hrec] at h
        simp only [List.mem_cons] at h
        rcases h with h | h
        · subst h; simp
        · exact ih pg (by rw [hrec]; exact List.mem_cons_of_mem _ h)

theorem pagesOf_flatten (max : Nat) (gs : List (Date × List Photo)) :
    (pagesOf max gs).flatten = gs := by
  unfold pagesOf
  rw [splitInclusive_flatten]
  exact List.map_fst_zip _ _ (by rw [split_flags_length])

theorem pagesOf_ne_nil (max : Nat) (gs : List (Date × List Photo)) :
    ∀ pg ∈ pagesOf max gs, pg ≠ [] := by
  intro pg h
  exact splitInclusive_ne_nil _ pg h

theorem pages_flatten (photos : List Photo) :
    (pages photos).flatten = photos_by_day photos :=
  pagesOf_flatten _ _

theorem dateDescLe_trans :
    ∀ (a b c : Date), dateDescLe a b → dateDescLe b c → dateDescLe a c := by
  intro a b c hab hbc
  simp only [dateDescLe, decide_eq_true_eq] at *
  exact date_le_trans hbc hab

theorem dateDescLe_total : ∀ (a b : Date), dateDescLe a b || dateDescLe b a := by
  intro a b
  rcases date_le_total a b with h | h <;> simp [dateDescLe, h]

theorem photoDescLe_trans :
    ∀ (a b c : Photo), photoDescLe a b → photoDescLe b c → photoDescLe a c := by
  intro a b c hab hbc
  simp only [photoDescLe, decide_eq_true_eq] at *
  exact dt_le_trans hbc hab

theorem photoDescLe_total :
    ∀ (a b : Photo), photoDescLe a b || photoDescLe b a := by
  intro a b
  rcases dt_le_total a.dt b.dt with h | h <;> simp [photoDescLe, h]

theorem sorted_dates_nodup (photos : List Photo) : (sorted_dates photos).Nodup :=
  ((List.mergeSort_perm _ dateDescLe).nodup_iff).mpr (List.nodup_dedup _)

theorem sorted_dates_sorted (photos : List Photo) :
    (sorted_dates photos).Pairwise (fun a b => Date.le b a) := by
  have h := List.sorted_mergeSort dateDescLe_trans dateDescLe_total
    ((photos.map (fun p => p.dt.date)).dedup)
  exact h.imp (fun hab => of_decide_eq_true hab)

theorem sorted_dates_strict (photos : List Photo) :
    (sorted_dates photos).Pairwise (fun a b => Date.lt b a) := by
  have h1 := sorted_dates_sorted photos
  have h2 : (sorted_dates photos).Pairwise (· ≠ ·) := sorted_dates_nodup photos
  exact (h1.and h2).imp
    (fun hab => Date.lt_of_le_of_ne hab.1 (Ne.symm hab.2))

theorem photos_by_day_map_fst (photos : List Photo) :
    (photos_by_day photos).map Prod.fst = sorted_dates photos := by
  unfold photos_by_day
  rw [List.map_map]
  exact List.map_id _

theorem mem_photos_by_day {photos : List Photo} {d : Date} {g : List Photo}
    (h : (d, g) ∈ photos_by_day photos) :
    d ∈ sorted_dates photos ∧
      g = (photos.filter (fun p => decide (p.dt.date = d))).mergeSort photoDescLe := by
  unfold photos_by_day at h
  obtain ⟨d', hd', heq⟩ := List.mem_map.mp h
  have h1 : d' = d := congrArg Prod.fst heq
  have h2 := congrArg Prod.snd heq
  subst h1
  exact ⟨hd', h2.symm⟩

theorem photos_by_day_pairwise (photos : List Photo) :
    (photos_by_day photos).Pairwise (fun g1 g2 => Date.lt g2.1 g1.1) := by
  unfold photos_by_day
  rw [List.pairwise_map]
  exact sorted_dates_strict photos

theorem enumFrom_map_apply {α β : Type} (d : α) (f : Nat → α → β) :
    ∀ (l : List α) (n : Nat),
      (l.enumFrom n).map (fun ip => f ip.1 ip.2) =
        (List.range l.length).map (fun i => f (n + i) (l.getD i d)) := by
  intro l
  induction l with
  | nil => intro n; rfl
  | cons a t ih =>
    intro n
    simp only [List.enumFrom, List.map_cons, List.length_cons]
    rw [List.range_succ_eq_map]
    simp only [List.map_cons, List.map_map]
    refine congrArg₂ List.cons (by simp) ?_
    rw [ih (n + 1)]
    refine List.map_congr_left ?_
    intro i hi
    simp only [Function.comp_apply, List.getD_cons_succ]
    congr 1
    omega

theorem enum_map_eq_range_map {α β : Type} (d : α) (f : Nat → α → β)
    (l : List α) :
    l.enum.map (fun ip => f ip.1 ip.2) =
      (List.range l.length).map (fun i => f i (l.getD i d)) := by
  have h := enumFrom_map_apply d f l 0
  simpa using h

theorem head_getLast_rel {α : Type} {R : α → α → Prop} {l : List α}
    (hp : l.Pairwise R) {s e : α} (hs : l.getLast? = some s)
    (he : l.head? = some e) :
    e = s ∨ R e s := by
  cases l with
  | nil => simp at hs
  | cons a t =>
    simp only [List.head?_cons, Option.some.injEq] at he
    subst he
    cases t with
    | nil =>
      left
      simp only [List.getLast?_singleton, Option.some.injEq] at hs
      exact hs
    | cons b u =>
      right
      rw [List.getLast?_cons_cons] at hs
      have hmem : s ∈ b :: u :=
        List.mem_of_mem_getLast? (show s ∈ (b :: u).getLast? by rw [hs]; rfl)
      exact (List.pairwise_cons.mp hp).1 s hmem

theorem navLabel_eq {pg : List (Date × List Photo)} {s e : Date × List Photo}
    (hs : pg.getLast? = some s) (he : pg.head? = some e) :
    navLabel pg =
      if Date.lt s.1 e.1 then dateStr s.1 ++ navSep ++ dateStr e.1
      else dateStr s.1 := by
  unfold navLabel
  rw [hs, he]

/-! Claim theorems. -/

/-- Claim C3: pages chunk the day-group list without splitting or
duplicating a group (their concatenation is exactly the group list); no page
is empty; the groups across all pages are pairwise disjoint photo sets; no
date occurs on two different pages; and a photo is on some page exactly when
it is in the input scan. -/
theorem claim3_pages_partition (photos : List Photo) :
    (pages photos).flatten = photos_by_day photos ∧
      (∀ pg ∈ pages photos, pg ≠ []) ∧
      ((pages photos).flatten.Pairwise
        (fun g1 g2 => ∀ p, p ∈ g1.2 → p ∉ g2.2)) ∧
      ((pages photos).Pairwise
        (fun pg1 pg2 => ∀ d, d ∈ pg1.map Prod.fst → d ∉ pg2.map Prod.fst)) ∧
      (∀ p : Photo, (∃ pg ∈ pages photos, ∃ g ∈ pg, p ∈ g.2) ↔ p ∈ photos) := by
  refine ⟨pages_flatten photos, pagesOf_ne_nil _ _, ?_, ?_, ?_⟩
  · rw [pages_flatten photos]
    unfold photos_by_day
    rw [List.pairwise_map]
    refine (sorted_dates_strict photos).imp ?_
    intro d1 d2 hlt p hp1 hp2
    have h1 : p.dt.date = d1 :=
      of_decide_eq_true (List.mem_filter.mp (List.mem_mergeSort.mp hp1)).2
    have h2 : p.dt.date = d2 :=
      of_decide_eq_true (List.mem_filter.mp (List.mem_mergeSort.mp hp2)).2
    exact Date.ne_of_lt hlt (h2.symm.trans h1)
  · have hnd : ((pages photos).map (fun pg => pg.map Prod.fst)).flatten.Pairwise
        (fun a b => a ≠ b) := by
      rw [← List.map_flatten, pages_flatten, photos_by_day_map_fst]
      exact sorted_dates_nodup photos
    have h2 := (List.pairwise_flatten.mp hnd).2
    rw [List.pairwise_map] at h2
    refine h2.imp ?_
    intro pg1 pg2 h d hd1 hd2
    exact h d hd1 d hd2 rfl
  · intro p
    constructor
    · rintro ⟨pg, hpg, g, hg, hpmem⟩
      have hgj : g ∈ (pages photos).flatten := List.mem_flatten.mpr ⟨pg, hpg, hg⟩
      rw [pages_flatten] at hgj
      obtain ⟨d, gl⟩ := g
      obtain ⟨-, rfl⟩ := mem_photos_by_day hgj
      exact (List.mem_filter.mp (List.mem_mergeSort.mp hpmem)).1
    · intro hp
      have hd : p.dt.date ∈ sorted_dates photos :=
        List.mem_mergeSort.mpr (List.mem_dedup.mpr (List.mem_map.mpr ⟨p, hp, rfl⟩))
      have hgmem : (p.dt.date,
          (photos.filter (fun q => decide (q.dt.date = p.dt.date))).mergeSort
            photoDescLe) ∈ photos_by_day photos :=
        List.mem_map.mpr ⟨p.dt.date, hd, rfl⟩
      rw [← pages_flatten] at hgmem
      obtain ⟨pg, hpg, hgin⟩ := List.mem_flatten.mp hgmem
      exact ⟨pg, hpg, _, hgin,
        List.mem_mergeSort.mpr (List.mem_filter.mpr ⟨hp, by simp⟩)⟩

/-- Claim C3 witness: the partition facts instantiated at the concrete run
[[wPhotos]], projected to the chunking equation. -/
theorem claim3_witness :
    (pages wPhotos).flatten = photos_by_day wPhotos :=
  (claim3_pages_partition wPhotos).1

/-- Claim C5: inside every day-group the photos are ordered by `captured_at`
descending (non-increasing), and the sort is stable: for any fixed timestamp
of the group's date, the photos carrying it appear in exactly the input scan
order. -/
theorem claim5_group_sorted_stable (photos : List Photo) (d : Date)
    (g : List Photo) (hmem : (d, g) ∈ photos_by_day photos) :
    g.Pairwise (fun a b => DT.le b.dt a.dt) ∧
      ∀ t : DT, t.date = d →
        g.filter (fun p => decide (p.dt = t)) =
          photos.filter (fun p => decide (p.dt = t)) := by
  obtain ⟨-, rfl⟩ := mem_photos_by_day hmem
  constructor
  · exact (List.sorted_mergeSort photoDescLe_trans photoDescLe_total _).imp
      (fun hab => of_decide_eq_true hab)
  · intro t ht
    set L := photos.filter (fun p => decide (p.dt.date = d)) with hL
    set q : Photo → Bool := fun p => decide (p.dt = t) with hq
    have hqL : L.filter q = photos.filter q := by
      rw [hL, List.filter_filter]
      refine List.filter_congr ?_
      intro a ha
      rw [hq]
      by_cases hat : a.dt = t
      · simp [hat, ht]
      · simp [hat]
    have hall : ∀ x ∈ L.filter q, ∀ y ∈ L.filter q, photoDescLe x y := by
      intro x hx y hy
      have hxt : x.dt = t := by
        have := (List.mem_filter.mp hx).2
        rw [hq] at this
        exact of_decide_eq_true this
      have hyt : y.dt = t := by
        have := (List.mem_filter.mp hy).2
        rw [hq] at this
        exact of_decide_eq_true this
      have : DT.le y.dt x.dt := by rw [hxt, hyt]; exact DT.le_refl t
      exact decide_eq_true this
    have hsubsort : List.Sublist (L.filter q) (L.mergeSort photoDescLe) :=
      List.sublist_mergeSort photoDescLe_trans photoDescLe_total
        (List.pairwise_of_forall_mem_list hall) (List.filter_sublist L)
    have hfix : (L.filter q).filter q = L.filter q := by
      refine List.filter_eq_self.mpr ?_
      intro a ha
      exact (List.mem_filter.mp ha).2
    have hsub : List.Sublist (L.filter q) ((L.mergeSort photoDescLe).filter q) := by
      have h2 := hsubsort.filter q
      rw [hfix] at h2
      exact h2
    have hperm : List.Perm ((L.mergeSort photoDescLe).filter q) (L.filter q) :=
      (List.mergeSort_perm L photoDescLe).filter q
    have heq : L.filter q = (L.mergeSort photoDescLe).filter q :=
      hsub.eq_of_length hperm.length_eq.symm
    rw [← heq, hqL]

/-- Claim C5 witness: in the run scanning [[wPhotos]], the 2024-01-02 group
is `[wP1, wP2]` — sorted non-increasingly, and the two photos sharing the
timestamp keep their scan order. -/
theorem claim5_witness :
    ([wP1, wP2].Pairwise (fun a b => DT.le b.dt a.dt)) ∧
      ([wP1, wP2].filter (fun p => decide (p.dt = (⟨date0102, 10⟩ : DT))) =
        wPhotos.filter (fun p => decide (p.dt = (⟨date0102, 10⟩ : DT)))) := by
  have hdates : sorted_dates wPhotos = [date0102, date0101] := by
    unfold sorted_dates
    rw [show (wPhotos.map (fun p => p.dt.date)).dedup = [date0102, date0101] from
      by decide]
    exact List.mergeSort_of_sorted (by decide)
  have hg2 : (wPhotos.filter
      (fun p => decide (p.dt.date = date0102))).mergeSort photoDescLe =
      [wP1, wP2] := by
    rw [show wPhotos.filter (fun p => decide (p.dt.date = date0102)) = [wP1, wP2]
      from by decide]
    exact List.mergeSort_of_sorted (by decide)
  have hmem : (date0102, [wP1, wP2]) ∈ photos_by_day wPhotos := by
    unfold photos_by_day
    rw [hdates, List.map_cons, hg2]
    exact List.mem_cons_self _ _
  have h := claim5_group_sorted_stable wPhotos date0102 [wP1, wP2] hmem
  exact ⟨h.1, h.2 ⟨date0102, 10⟩ rfl⟩

/-- Claim C6: pages are ordered most-recent-date-first (every date on an
earlier page is strictly later than every date on a later page), and the
written files are exactly `output_dir/page_{i}.html` for the contiguous
0-based page indices `i`, in order. -/
theorem claim6_page_order_and_paths (outDir : String) (photos : List Photo) :
    ((pages photos).Pairwise (fun pg1 pg2 =>
        ∀ d1 ∈ pg1.map Prod.fst, ∀ d2 ∈ pg2.map Prod.fst, Date.lt d2 d1)) ∧
      (generate_writes outDir photos).map Prod.fst =
        (List.range (pages photos).length).map
          (fun i => outDir ++ "/" ++ page_path i) := by
  constructor
  · have hflat : ((pages photos).map (fun pg => pg.map Prod.fst)).flatten.Pairwise
        (fun a b => Date.lt b a) := by
      rw [← List.map_flatten, pages_flatten, photos_by_day_map_fst]
      exact sorted_dates_strict photos
    have h2 := (List.pairwise_flatten.mp hflat).2
    rw [List.pairwise_map] at h2
    exact h2
  · unfold generate_writes
    rw [List.map_map]
    exact enum_map_eq_range_map ([] : List (Date × List Photo))
      (fun i _ => outDir ++ "/" ++ page_path i) (pages photos)

/-- Claim C1 (code behavior at the claimed boundary input).  The claim says
the paginator ends a page *before* the group that would push the count over
the maximum, so sizes [30, 30, 5] should give pages [[30], [30, 5]].  The
code's `split_inclusive` instead ends the page *with* the overflowing group:
the run produces pages [[30, 30], [5]], with 60 photos on the first page. -/
theorem claim1_pagination_code_behavior :
    pagesOf 50 [g30a, g30b, g5c] = [[g30a, g30b], [g5c]] ∧
      (pagesOf 50 [g30a, g30b, g5c]).map
        (fun pg => (pg.map (fun g => g.2.length)).sum) = [60, 5] := by
  constructor
  · rfl
  · rfl

/-- Claim C2 (code behavior on an oversized group).  The claim says a page
exceeds the maximum only when it is a single oversized group, and an
80-photo group is never accompanied by other groups.  In the code, groups of
sizes [10, 80] end up together on one 90-photo page. -/
theorem claim2_page_bound_code_behavior :
    pagesOf 50 [g10, g80] = [[g10, g80]] ∧
      (pagesOf 50 [g10, g80]).map
        (fun pg => (pg.map (fun g => g.2.length)).sum) = [90] := by
  constructor
  · rfl
  · rfl

/-- Claim C4: the derivative cache skips the conversion tool exactly when
the output file exists and its modification time is strictly later than the
source's; in every other case the tool is invoked. -/
theorem claim4_cache_reuse_iff (present : Bool) (dmtime smtime : Nat) :
    generate_image_invoked present dmtime smtime = false ↔
      (present = true ∧ smtime < dmtime) := by
  unfold generate_image_invoked
  cases present with
  | false => simp
  | true =>
    by_cases h : smtime < dmtime <;> simp [h]

/-- Claim C6 witness: the path equation instantiated at the concrete run
[[wPhotos]] with output directory `web`. -/
theorem claim6_witness :
    (generate_writes "web" wPhotos).map Prod.fst =
      (List.range (pages wPhotos).length).map
        (fun i => "web" ++ "/" ++ page_path i) :=
  (claim6_page_order_and_paths "web" wPhotos).2

/-- Navigation structure of a run (general form): the one nav string
computed per run occurs in every written page; it concatenates one entry per
page in index order, entry `i` linking `page_{i}.html`; and each page's
label is its single date when first and last day-groups share the date,
otherwise the earlier date (the page's last group) and the later date (the
page's first group) joined by the code's [[navSep]] separator. -/
theorem nav_shared_and_entries (outDir : String) (photos : List Photo) :
    (∀ w ∈ generate_writes outDir photos, nav (pages photos) ∈ w.2) ∧
      (nav (pages photos) =
        "<hr>\n<ul class=\"nav\">\n"
          ++ String.join ((List.range (pages photos).length).map
              (fun i => navEntry i ((pages photos).getD i [])))
          ++ "</ul>\n") ∧
      (∀ pg ∈ pages photos, ∀ s e,
        pg.getLast? = some s → pg.head? = some e →
          ((s.1 = e.1 → navLabel pg = dateStr e.1) ∧
           (s.1 ≠ e.1 → Date.lt s.1 e.1 ∧
              navLabel pg = dateStr s.1 ++ navSep ++ dateStr e.1))) := by
  refine ⟨?_, ?_, ?_⟩
  · intro w hw
    obtain ⟨ip, hip, rfl⟩ := List.mem_map.mp hw
    simp [pageChunks]
  · unfold nav
    rw [enum_map_eq_range_map ([] : List (Date × List Photo)) navEntry
      (pages photos)]
  · intro pg hpg s e hs he
    have hpw : pg.Pairwise (fun g1 g2 => Date.lt g2.1 g1.1) := by
      have hflat : (pages photos).flatten.Pairwise
          (fun g1 g2 => Date.lt g2.1 g1.1) := by
        rw [pages_flatten]
        exact photos_by_day_pairwise photos
      exact (List.pairwise_flatten.mp hflat).1 pg hpg
    have hrel := head_getLast_rel hpw hs he
    constructor
    · intro heq
      have hnlt : ¬ Date.lt s.1 e.1 := by
        rw [heq]
        exact Date.not_lt_self
      rw [navLabel_eq hs he, if_neg hnlt, heq]
    · intro hne
      have hlt : Date.lt s.1 e.1 := by
        rcases hrel with rfl | h
        · exact absurd rfl hne
        · exact h
      exact ⟨hlt, by rw [navLabel_eq hs he, if_pos hlt]⟩

/-- Claim C8 (code behavior at the claimed label input).  The claim says a
page spanning 2024-01-02 through 2024-01-05 is labeled
`2024-01-02–2024-01-05` with an en dash.  The format string at main.rs:198
instead holds the mojibake characters U+00E2 U+20AC U+201C (an en dash
double-encoded through cp1252), so the run scanning [[nPhotos]] produces the
single page [[navPage]] whose label is the three mojibake characters between
the dates — not the claimed en-dash label. -/
theorem claim8_nav_label_code_behavior :
    pages nPhotos = [navPage] ∧
      navLabel navPage = "2024-01-02\u00E2\u20AC\u201C2024-01-05" ∧
      navLabel navPage ≠ "2024-01-02\u20132024-01-05" := by
  have hdates : sorted_dates nPhotos = [⟨2024, 1, 5⟩, date0102] := by
    unfold sorted_dates
    rw [show (nPhotos.map (fun p => p.dt.date)).dedup =
      [⟨2024, 1, 5⟩, date0102] from by decide]
    exact List.mergeSort_of_sorted (by decide)
  have hg1 : (nPhotos.filter
      (fun p => decide (p.dt.date = (⟨2024, 1, 5⟩ : Date)))).mergeSort
        photoDescLe = [nP1] := by
    rw [show nPhotos.filter (fun p => decide (p.dt.date = (⟨2024, 1, 5⟩ : Date)))
      = [nP1] from by decide]
    exact List.mergeSort_singleton nP1
  have hg2 : (nPhotos.filter
      (fun p => decide (p.dt.date = date0102))).mergeSort photoDescLe =
      [nP2] := by
    rw [show nPhotos.filter (fun p => decide (p.dt.date = date0102)) = [nP2]
      from by decide]
    exact List.mergeSort_singleton nP2
  have hpbd : photos_by_day nPhotos = navPage := by
    unfold photos_by_day
    rw [hdates, List.map_cons, List.map_cons, List.map_nil, hg1, hg2]
    rfl
  have hpages : pages nPhotos = [navPage] := by
    unfold pages
    rw [hpbd]
    rfl
  refine ⟨hpages, by decide, by decide⟩

/-- Claim C7: attaching the photo's own fixed UTC offset to the parsed
wall-clock time and stripping it back to a naive local timestamp is the
identity, so the stored `captured_at` equals the parsed date-time. -/
theorem claim7_captured_at_identity (offsetSecs parsedDt : Int) :
    captured_at offsetSecs parsedDt = parsedDt := by
  unfold captured_at naive_local from_local_datetime
  omega

/-- Claim C7 witness: a POSIX-style instant at offset +01:00 is stored
unchanged. -/
theorem claim7_witness : captured_at 3600 1000 = 1000 :=
  claim7_captured_at_identity 3600 1000

/-- Claim C4 witness: an existing output of modification time 5 against a
source of modification time 3 skips the tool, as `5 > 3`. -/
theorem claim4_witness :
    generate_image_invoked true 5 3 = false ↔ (true = true ∧ 3 < 5) :=
  claim4_cache_reuse_iff true 5 3

theorem stepJob_preserves {tool : String → Nat} {clock : Nat}
    {st : (String → Deriv) × List String} {j : String × Nat} {k : String}
    {s : Nat} (hs : s < clock) (h : cacheValid st.1 k s) :
    cacheValid (stepJob tool clock st j).1 k s := by
  unfold stepJob
  split
  · exact h
  · by_cases hk : k = j.1
    · simp [cacheValid, hk, hs]
    · simpa [cacheValid, hk] using h

theorem foldl_stepJob_preserves {tool : String → Nat} {clock : Nat}
    {k : String} {s : Nat} (hs : s < clock) :
    ∀ (jobs : List (String × Nat)) (st : (String → Deriv) × List String),
      cacheValid st.1 k s →
      cacheValid ((jobs.foldl (stepJob tool clock) st)).1 k s := by
  intro jobs
  induction jobs with
  | nil => intro st h; exact h
  | cons j0 rest ih =>
    intro st h
    rw [List.foldl_cons]
    exact ih _ (stepJob_preserves hs h)

theorem stepJob_self {tool : String → Nat} {clock : Nat}
    {st : (String → Deriv) × List String} {j : String × Nat}
    (hj : j.2 < clock) :
    cacheValid (stepJob tool clock st j).1 j.1 j.2 := by
  unfold stepJob
  split
  · next hcond =>
    have h := Bool.and_eq_true_iff.mp hcond
    exact ⟨h.1, of_decide_eq_true h.2⟩
  · simp [cacheValid, hj]

theorem foldl_stepJob_valid {tool : String → Nat} {clock : Nat} :
    ∀ (jobs : List (String × Nat)) (st : (String → Deriv) × List String),
      (∀ j ∈ jobs, j.2 < clock) →
      ∀ j ∈ jobs,
        cacheValid ((jobs.foldl (stepJob tool clock) st)).1 j.1 j.2 := by
  intro jobs
  induction jobs with
  | nil => intro st hall j hj; simp at hj
  | cons j0 rest ih =>
    intro st hall j hj
    rw [List.foldl_cons]
    rcases List.mem_cons.mp hj with rfl | hmem
    · exact foldl_stepJob_preserves (hall j (List.mem_cons_self _ _)) rest _
        (stepJob_self (hall j (List.mem_cons_self _ _)))
    · exact ih _ (fun j2 hj2 => hall j2 (List.mem_cons_of_mem _ hj2)) j hmem

theorem stepJob_hit {tool : String → Nat} {clock : Nat}
    {st : (String → Deriv) × List String} {j : String × Nat}
    (h : cacheValid st.1 j.1 j.2) :
    stepJob tool clock st j = st := by
  unfold stepJob
  rw [if_pos]
  rw [Bool.and_eq_true_iff]
  exact ⟨h.1, decide_eq_true h.2⟩

theorem foldl_stepJob_hit {tool : String → Nat} {clock : Nat} :
    ∀ (jobs : List (String × Nat)) (fs : String → Deriv) (acc : List String),
      (∀ j ∈ jobs, cacheValid fs j.1 j.2) →
      jobs.foldl (stepJob tool clock) (fs, acc) = (fs, acc) := by
  intro jobs
  induction jobs with
  | nil => intro fs acc h; rfl
  | cons j0 rest ih =>
    intro fs acc hall
    rw [List.foldl_cons,
      stepJob_hit (hall j0 (List.mem_cons_self _ _))]
    exact ih fs acc (fun j hj => hall j (List.mem_cons_of_mem _ hj))

/-- Claim C9: a second derivative-cache pass over an unchanged input
directory invokes the conversion tool for no photo and leaves every
derivative file untouched (bytes and modification times equal), provided
every source predates the first pass — the cache-validity rule accepts
every output the first pass leaves behind.  The HTML output of `generate`
is, in this embedding, a pure function of the scanned photos
([[generate_writes]]), so an unchanged scan reproduces it identically. -/
theorem claim9_idempotent_second_run (tool : String → Nat)
    (clock1 clock2 : Nat) (photos : List (String × Nat))
    (fs0 : String → Deriv) (h : ∀ p ∈ photos, p.2 < clock1) :
    runCache tool clock2 photos (runCache tool clock1 photos fs0).1 =
      ((runCache tool clock1 photos fs0).1, []) := by
  have hjobs : ∀ j ∈ jobsOf photos, j.2 < clock1 := by
    intro j hj
    obtain ⟨p, hp, hj2⟩ := List.mem_flatMap.mp hj
    rcases List.mem_cons.mp hj2 with rfl | hj3
    · exact h p hp
    · rcases List.mem_cons.mp hj3 with rfl | hj4
      · exact h p hp
      · simp at hj4
  have hvalid : ∀ j ∈ jobsOf photos,
      cacheValid (runCache tool clock1 photos fs0).1 j.1 j.2 :=
    foldl_stepJob_valid (jobsOf photos) (fs0, []) hjobs
  unfold runCache
  exact foldl_stepJob_hit _ _ _ hvalid

/-- Claim C9 witness: one photo `a.png` of modification time 3, first pass
at time 10, second pass at time 20: the second pass invokes nothing and
returns the first pass's store unchanged. -/
theorem claim9_witness :
    runCache (fun _ => 7) 20 [("a.png", 3)]
        (runCache (fun _ => 7) 10 [("a.png", 3)] (fun _ => ⟨false, 0, 0⟩)).1 =
      ((runCache (fun _ => 7) 10 [("a.png", 3)] (fun _ => ⟨false, 0, 0⟩)).1,
        []) :=
  claim9_idempotent_second_run (fun _ => 7) 10 20 [("a.png", 3)]
    (fun _ => ⟨false, 0, 0⟩) (by decide)

/-- Claim C10: the derivative path map is not injective; two sources whose
names differ only in extension share both derivative paths, here
`a.png`/`a.heic` both mapping to `thumbnail/a.jpg` and `img/a.jpg`. -/
theorem claim10_derivative_path_collision :
    ¬ Function.Injective outputName ∧
      outputName "a.png" = "a.jpg" ∧ outputName "a.heic" = "a.jpg" ∧
      thumbnail_path "a.png" = thumbnail_path "a.heic" ∧
      img_path "a.png" = img_path "a.heic" ∧
      "a.png" ≠ "a.heic" := by
  refine ⟨fun hinj => ?_, by decide, by decide, by decide, by decide, by decide⟩
  have h : ("a.png" : String) = "a.heic" := hinj (by decide)
  exact absurd h (by decide)

end Photo2Html
